import Mathlib

/-!
Shallow embedding of the Praxis agent core (orchestrator, decision strategy,
memory core) and proofs about the behaviour its specification claims.

Python dictionaries are modelled as insertion-ordered association lists with
in-place update, Python floats as exact rationals, `datetime.now()` readings
as explicit natural-number clocks, and fallible code as `Option`-returning
functions (`none` models a raised exception).
-/

namespace Praxis

/-- Python-style ordered dictionary assignment on an association list:
updates the value in place when the key exists (preserving its position),
appends a new binding otherwise — CPython dict semantics. -/
def pyDictSet {α : Type} : List (String × α) → String → α → List (String × α)
  | [], k, v => [(k, v)]
  | p :: ps, k, v => if p.1 = k then (k, v) :: ps else p :: pyDictSet ps k v

/-- Python dict lookup: the (unique) binding of the key, if present. -/
def pyDictGet {α : Type} : List (String × α) → String → Option α
  | [], _ => none
  | p :: ps, k => if p.1 = k then some p.2 else pyDictGet ps k

theorem pyDictGet_set {α : Type} (d : List (String × α)) (k k' : String) (v : α) :
    pyDictGet (pyDictSet d k v) k' = if k' = k then some v else pyDictGet d k' := by
  induction d with
  | nil =>
    simp only [pyDictSet, pyDictGet]
    split_ifs <;> simp_all [eq_comm]
  | cons p ps ih =>
    simp only [pyDictSet]
    by_cases hp : p.1 = k
    · rw [if_pos hp]
      by_cases h : k' = k
      · simp [pyDictGet, h]
      · simp [pyDictGet, h, Ne.symm h, hp]
    · rw [if_neg hp]
      by_cases hq : p.1 = k'
      · have hk : ¬k' = k := fun hh => hp (hq.trans hh)
        simp [pyDictGet, hq, hk]
      · simp [pyDictGet, hq, ih]

/-! ### Decision strategy (`GeneralizedMinimaxStrategy`, orchestrator.py) -/

/-- One entry of the `options` list built by `_fallback_evaluation`. -/
structure EvalOption where
  action : String
  success_probability : ℚ
  risk_score : ℚ
  expected_value : ℚ
  reasoning : String
  deriving DecidableEq

/-- The `DecisionPoint` dataclass. -/
structure DecisionPoint where
  options : List EvalOption
  risk_assessment : List (String × ℚ)
  expected_value : List (String × ℚ)
  selected_option : Option String
  reasoning : Option String
  deriving DecidableEq

/-- The fields `evaluate_options` reads (with `.get` defaults already applied)
from a successfully parsed LLM response. -/
structure EvalData where
  options : List EvalOption
  risk_assessment : List (String × ℚ)
  expected_value : List (String × ℚ)
  selected_option : Option String
  reasoning : Option String
  deriving DecidableEq

/-- The `action_priorities` table of `_fallback_evaluation`. -/
def action_priorities : List (String × ℚ) :=
  [("search_web", 0.8), ("read_file", 0.9), ("write_file", 0.7),
   ("list_directory", 0.95), ("fetch_url", 0.75), ("execute_python", 0.6),
   ("execute_command", 0.4)]

/-- Lookup `action_priorities.get(action, 0.5)`. -/
def priorityOf (a : String) : ℚ := (pyDictGet action_priorities a).getD 0.5

/-- The expected value `_fallback_evaluation` computes:
`priority * (1 - risk)` with `risk = 1 - priority`. -/
def evOf (a : String) : ℚ := priorityOf a * (1 - (1 - priorityOf a))

/-- One element of the `options` list built by `_fallback_evaluation`. -/
def mkFallbackOption (a : String) : EvalOption :=
  { action := a
    success_probability := priorityOf a
    risk_score := 1 - priorityOf a
    expected_value := evOf a
    reasoning := "Heuristic evaluation for " ++ a }

/-- The `risk_assessment` dict built by the loop of `_fallback_evaluation`. -/
def fallbackRisk (actions : List String) : List (String × ℚ) :=
  actions.foldl (fun d a => pyDictSet d a (1 - priorityOf a)) []

/-- The `expected_value` dict built by the loop of `_fallback_evaluation`. -/
def fallbackEV (actions : List String) : List (String × ℚ) :=
  actions.foldl (fun d a => pyDictSet d a (evOf a)) []

/-- Python's `max(d.keys(), key=lambda k: d[k])` on a duplicate-free ordered
dict: the first key of maximal value; `none` models the `ValueError` raised
on an empty dict. -/
def pyMaxKey : List (String × ℚ) → Option String
  | [] => none
  | p :: ps => some ((ps.foldl (fun best q => if best.2 < q.2 then q else best) p).1)

/-- Model of `GeneralizedMinimaxStrategy._fallback_evaluation`; `none` models the
exception escaping from `max` on an empty candidate list. -/
def fallback_evaluation (actions : List String) : Option DecisionPoint :=
  match pyMaxKey (fallbackEV actions) with
  | none => none
  | some best =>
      some { options := actions.map mkFallbackOption
             risk_assessment := fallbackRisk actions
             expected_value := fallbackEV actions
             selected_option := some best
             reasoning := some "Fallback heuristic evaluation" }

/-- Outcome of the LLM call plus JSON parse inside `evaluate_options`. -/
inductive LLMOutcome where
  | failure
  | unparseable
  | parsed (d : EvalData)

/-- Model of `GeneralizedMinimaxStrategy.evaluate_options`, as a function of the LLM
outcome: transport failure and parse failure take the fallback path, a parsed
response is packaged into a `DecisionPoint` unchanged. -/
def evaluate_options (resp : LLMOutcome) (actions : List String) : Option DecisionPoint :=
  match resp with
  | .failure => fallback_evaluation actions
  | .unparseable => fallback_evaluation actions
  | .parsed d =>
      some { options := d.options
             risk_assessment := d.risk_assessment
             expected_value := d.expected_value
             selected_option := d.selected_option
             reasoning := d.reasoning }

theorem pyDictGet_mem {α : Type} (d : List (String × α)) (k : String) (v : α)
    (h : pyDictGet d k = some v) : (k, v) ∈ d := by
  induction d with
  | nil => simp [pyDictGet] at h
  | cons p ps ih =>
    by_cases hp : p.1 = k
    · simp only [pyDictGet, if_pos hp] at h
      obtain ⟨a, b⟩ := p
      obtain rfl : a = k := hp
      obtain rfl : b = v := Option.some.inj h
      exact List.mem_cons_self _ _
    · simp only [pyDictGet, if_neg hp] at h
      exact List.mem_cons_of_mem _ (ih h)

theorem pyDictSet_mem {α : Type} (d : List (String × α)) (k : String) (v : α) :
    ∀ p ∈ pyDictSet d k v, p ∈ d ∨ p = (k, v) := by
  induction d with
  | nil => simp [pyDictSet]
  | cons q qs ih =>
    intro p hp
    by_cases hq : q.1 = k
    · simp only [pyDictSet, if_pos hq] at hp
      rcases List.mem_cons.mp hp with h | h
      · exact Or.inr h
      · exact Or.inl (List.mem_cons_of_mem _ h)
    · simp only [pyDictSet, if_neg hq] at hp
      rcases List.mem_cons.mp hp with h | h
      · exact Or.inl (List.mem_cons.mpr (Or.inl h))
      · rcases ih p h with h' | h'
        · exact Or.inl (List.mem_cons_of_mem _ h')
        · exact Or.inr h'

theorem foldEV_get (actions : List String) (d : List (String × ℚ)) (a : String) :
    pyDictGet (actions.foldl (fun d x => pyDictSet d x (evOf x)) d) a
      = if a ∈ actions then some (evOf a) else pyDictGet d a := by
  induction actions generalizing d with
  | nil => simp
  | cons x xs ih =>
    simp only [List.foldl_cons, ih, pyDictGet_set]
    by_cases hx : a = x
    · subst hx
      by_cases hmem : a ∈ xs <;> simp [hmem]
    · simp [hx, List.mem_cons]

theorem foldEV_mem (actions : List String) (d : List (String × ℚ)) :
    ∀ p ∈ actions.foldl (fun d x => pyDictSet d x (evOf x)) d,
      p ∈ d ∨ ∃ x, x ∈ actions ∧ p = (x, evOf x) := by
  induction actions generalizing d with
  | nil => exact fun p hp => Or.inl hp
  | cons x xs ih =>
    intro p hp
    rcases ih (pyDictSet d x (evOf x)) p hp with h | ⟨y, hy, hpy⟩
    · rcases pyDictSet_mem d x (evOf x) p h with h' | h'
      · exact Or.inl h'
      · exact Or.inr ⟨x, List.mem_cons_self x xs, h'⟩
    · exact Or.inr ⟨y, List.mem_cons_of_mem _ hy, hpy⟩

theorem pyMaxFold_spec (ps : List (String × ℚ)) (p : String × ℚ) :
    (ps.foldl (fun best q => if best.2 < q.2 then q else best) p) ∈ p :: ps ∧
    ∀ q ∈ p :: ps, q.2 ≤ (ps.foldl (fun best q => if best.2 < q.2 then q else best) p).2 := by
  induction ps generalizing p with
  | nil =>
    refine ⟨List.mem_cons_self p [], ?_⟩
    intro q hq
    rcases List.mem_cons.mp hq with h | h
    · exact h ▸ le_refl _
    · simp at h
  | cons r rs ih =>
    have hstep : (r :: rs).foldl (fun best q => if best.2 < q.2 then q else best) p
        = rs.foldl (fun best q => if best.2 < q.2 then q else best)
            (if p.2 < r.2 then r else p) := rfl
    set p' := if p.2 < r.2 then r else p with hp'
    have hmem' : p' = r ∨ p' = p := by
      by_cases h : p.2 < r.2 <;> simp [hp', h]
    have hple : p.2 ≤ p'.2 := by
      by_cases h : p.2 < r.2 <;> simp [hp', h, le_of_lt]
    have hrle : r.2 ≤ p'.2 := by
      by_cases h : p.2 < r.2 <;> simp [hp', h]
      exact le_of_not_lt h
    rcases ih p' with ⟨ihmem, ihmax⟩
    constructor
    · rw [hstep]
      rcases List.mem_cons.mp ihmem with h | h
      · rw [h]
        rcases hmem' with h' | h'
        · rw [h']
          exact List.mem_cons.mpr (Or.inr (List.mem_cons_self r rs))
        · rw [h']
          exact List.mem_cons_self p _
      · exact List.mem_cons.mpr (Or.inr (List.mem_cons.mpr (Or.inr h)))
    · intro q hq
      rw [hstep]
      have hp'le := ihmax p' (List.mem_cons_self p' rs)
      rcases List.mem_cons.mp hq with h | h
      · exact h ▸ le_trans hple hp'le
      · rcases List.mem_cons.mp h with h' | h'
        · exact h' ▸ le_trans hrle hp'le
        · exact ihmax q (List.mem_cons_of_mem _ h')

theorem pyMaxKey_spec (d : List (String × ℚ)) (hd : d ≠ []) :
    ∃ k p, pyMaxKey d = some k ∧ p ∈ d ∧ p.1 = k ∧ ∀ q ∈ d, q.2 ≤ p.2 := by
  match d with
  | [] => exact absurd rfl hd
  | p :: ps =>
    rcases pyMaxFold_spec ps p with ⟨hmem, hmax⟩
    exact ⟨_, _, rfl, hmem, rfl, hmax⟩

theorem fallback_evaluation_spec (actions : List String) (hne : actions ≠ []) :
    ∃ dp best, fallback_evaluation actions = some dp ∧
      dp.selected_option = some best ∧ best ∈ actions ∧
      pyDictGet dp.expected_value best = some (evOf best) ∧
      (∀ a ∈ actions, pyDictGet dp.expected_value a = some (evOf a) ∧ evOf a ≤ evOf best) ∧
      dp.expected_value = fallbackEV actions ∧
      dp.options = actions.map mkFallbackOption := by
  have hev : fallbackEV actions ≠ [] := by
    match actions, hne with
    | a :: as, _ =>
      intro hcontra
      have h1 := foldEV_get (a :: as) [] a
      rw [show (a :: as).foldl (fun d x => pyDictSet d x (evOf x)) []
            = fallbackEV (a :: as) from rfl, hcontra] at h1
      simp [pyDictGet] at h1
  rcases pyMaxKey_spec (fallbackEV actions) hev with ⟨k, p, hk, hpmem, hpk, hpmax⟩
  have hpmem' : p ∈ actions.foldl (fun d x => pyDictSet d x (evOf x)) [] := hpmem
  rcases foldEV_mem actions [] p hpmem' with h | ⟨x, hx, hpx⟩
  · simp at h
  have hxk : x = k := by rw [← hpk, hpx]
  have hkmem : k ∈ actions := hxk ▸ hx
  have hpval : p.2 = evOf k := by rw [hpx, hxk]
  refine ⟨{ options := actions.map mkFallbackOption
            risk_assessment := fallbackRisk actions
            expected_value := fallbackEV actions
            selected_option := some k
            reasoning := some "Fallback heuristic evaluation" },
      k, ?_, rfl, hkmem, ?_, ?_, rfl, rfl⟩
  · unfold fallback_evaluation
    rw [hk]
  · rw [show (fallbackEV actions) = actions.foldl (fun d x => pyDictSet d x (evOf x)) [] from rfl,
      foldEV_get, if_pos hkmem]
  · intro a ha
    have hga : pyDictGet (fallbackEV actions) a = some (evOf a) := by
      rw [show (fallbackEV actions) = actions.foldl (fun d x => pyDictSet d x (evOf x)) [] from rfl,
        foldEV_get, if_pos ha]
    refine ⟨hga, ?_⟩
    have := hpmax (a, evOf a) (pyDictGet_mem _ _ _ hga)
    rw [hpval] at this
    exact this

/-- C1: data for a parsed LLM response whose `selected_option` is not a
member of the candidate set. -/
def badEvalData : EvalData :=
  { options := []
    risk_assessment := []
    expected_value := [("read_file", 1)]
    selected_option := some "made_up_action"
    reasoning := none }

/-- C1 counterexample: in the model-driven path, `evaluate_options` returns
the parsed `selected_option` verbatim, with no membership validation and no
fallback — here an action outside the candidate set `["read_file"]` is
returned, contradicting the claim that such a selection is a
ValidationFailure triggering the fallback heuristic. -/
theorem C1_counterexample :
    (evaluate_options (LLMOutcome.parsed badEvalData) ["read_file"]).map
        DecisionPoint.selected_option = some (some "made_up_action") ∧
    "made_up_action" ∉ ["read_file"] := by
  exact ⟨rfl, by decide⟩

/-- C1 (amended): in the fallback path (transport failure or parse failure)
with a non-empty candidate list, the returned DecisionPoint's selectedOption
is a member of the candidates and its expectedValue entry is the maximum
expected value over all candidates; the model-driven path returns the parsed
fields unvalidated. -/
theorem C1_evaluate_fallback_selected (actions : List String) (hne : actions ≠ []) :
    (∀ d : EvalData, evaluate_options (LLMOutcome.parsed d) actions =
        some ⟨d.options, d.risk_assessment, d.expected_value, d.selected_option, d.reasoning⟩) ∧
    ∃ dp best, evaluate_options LLMOutcome.failure actions = some dp ∧
      evaluate_options LLMOutcome.unparseable actions = some dp ∧
      dp.selected_option = some best ∧ best ∈ actions ∧
      pyDictGet dp.expected_value best = some (evOf best) ∧
      ∀ a ∈ actions, pyDictGet dp.expected_value a = some (evOf a) ∧ evOf a ≤ evOf best := by
  refine ⟨fun d => rfl, ?_⟩
  rcases fallback_evaluation_spec actions hne with ⟨dp, best, heq, hsel, hmem, hget, hmax, _, _⟩
  exact ⟨dp, best, heq, heq, hsel, hmem, hget, hmax⟩

/-- C1 witness: instantiation at the candidate list
`["execute_command", "read_file"]`. -/
theorem C1_evaluate_fallback_selected_witness :
    ∃ dp best, evaluate_options LLMOutcome.failure ["execute_command", "read_file"] = some dp ∧
      evaluate_options LLMOutcome.unparseable ["execute_command", "read_file"] = some dp ∧
      dp.selected_option = some best ∧ best ∈ ["execute_command", "read_file"] ∧
      pyDictGet dp.expected_value best = some (evOf best) ∧
      ∀ a ∈ ["execute_command", "read_file"],
        pyDictGet dp.expected_value a = some (evOf a) ∧ evOf a ≤ evOf best :=
  (C1_evaluate_fallback_selected ["execute_command", "read_file"] (by simp)).2

/-- C9: the fallback evaluation is total exactly on non-empty candidate
lists: any non-empty list yields a DecisionPoint whose selectedOption is set
(and a member of the input), unknown action names default to success
probability 0.5, and the empty list makes the `max` over the empty
expected-value dict raise (modelled as `none`). -/
theorem C9_fallback_requires_nonempty (actions : List String) (hne : actions ≠ []) :
    (∃ dp, fallback_evaluation actions = some dp ∧
       (∃ b, dp.selected_option = some b ∧ b ∈ actions) ∧
       ∀ a ∈ actions, pyDictGet action_priorities a = none →
         mkFallbackOption a ∈ dp.options ∧ (mkFallbackOption a).success_probability = 0.5) ∧
    fallback_evaluation [] = none := by
  refine ⟨?_, rfl⟩
  rcases fallback_evaluation_spec actions hne with ⟨dp, best, heq, hsel, hmem, _, _, _, hopts⟩
  refine ⟨dp, heq, ⟨best, hsel, hmem⟩, ?_⟩
  intro a ha hunknown
  constructor
  · rw [hopts]
    exact List.mem_map_of_mem mkFallbackOption ha
  · simp [mkFallbackOption, priorityOf, hunknown]

/-- C9 witness: instantiation at the unknown action name `"frobnicate"`. -/
theorem C9_fallback_requires_nonempty_witness :
    (∃ dp, fallback_evaluation ["frobnicate"] = some dp ∧
       (∃ b, dp.selected_option = some b ∧ b ∈ ["frobnicate"]) ∧
       ∀ a ∈ ["frobnicate"], pyDictGet action_priorities a = none →
         mkFallbackOption a ∈ dp.options ∧ (mkFallbackOption a).success_probability = 0.5) ∧
    fallback_evaluation [] = none :=
  C9_fallback_requires_nonempty ["frobnicate"] (by simp)

/-! ### Planning (`Orchestrator._create_plan` / `_create_fallback_plan`) -/

/-- Whether `needle` is a leading block of `hay`. -/
def charsStart : List Char → List Char → Bool
  | [], _ => true
  | _ :: _, [] => false
  | a :: as, b :: bs => a = b && charsStart as bs

/-- Whether `needle` occurs contiguously somewhere in the character list. -/
def charsSub (needle : List Char) : List Char → Bool
  | [] => charsStart needle []
  | b :: bs => charsStart needle (b :: bs) || charsSub needle bs

/-- Python's `goal.lower()`, as the lowercased character list of the string
(each character mapped to its lower-case form). -/
def pyLower (s : String) : List Char := s.data.map Char.toLower

/-- Python's substring test `needle in hay` on a lowercased haystack. -/
def pyIn (needle : String) (hay : List Char) : Bool := charsSub needle.data hay

/-- A JSON-ish parameter value appearing in a plan step. -/
inductive ParamVal where
  | str (s : String)
  | num (n : Nat)
  | flag (b : Bool)
  deriving DecidableEq

/-- A plan step as produced by planning. -/
structure Step where
  action : String
  parameters : List (String × ParamVal)
  expected_outcome : String
  rationale : String
  deriving DecidableEq

/-- The `search_web` step emitted by `_create_fallback_plan`. -/
def searchStep (goal : String) : Step :=
  { action := "search_web"
    parameters := [("query", ParamVal.str goal), ("num_results", ParamVal.num 5)]
    expected_outcome := "Find relevant information"
    rationale := "Search for information related to the goal" }

/-- The `list_directory` step emitted by `_create_fallback_plan`. -/
def listDirStep : Step :=
  { action := "list_directory"
    parameters := [("path", ParamVal.str "."), ("recursive", ParamVal.flag false)]
    expected_outcome := "List current directory contents"
    rationale := "Explore available files" }

/-- The introspective `get_system_info` step emitted when no keyword matches. -/
def systemInfoStep : Step :=
  { action := "get_system_info"
    parameters := []
    expected_outcome := "Get system information"
    rationale := "Gather basic system information to understand environment" }

/-- Model of `Orchestrator._create_fallback_plan`. -/
def create_fallback_plan (goal : String) : List Step :=
  let plan₁ := if pyIn "search" (pyLower goal) || pyIn "find" (pyLower goal)
    then [searchStep goal] else []
  let plan₂ := plan₁ ++ (if pyIn "file" (pyLower goal) || pyIn "read" (pyLower goal)
    then [listDirStep] else [])
  if plan₂ = [] then [systemInfoStep] else plan₂

theorem create_fallback_plan_eq (goal : String) :
    create_fallback_plan goal =
      if ((if pyIn "search" (pyLower goal) || pyIn "find" (pyLower goal)
            then [searchStep goal] else [])
          ++ (if pyIn "file" (pyLower goal) || pyIn "read" (pyLower goal)
            then [listDirStep] else [])) = []
      then [systemInfoStep]
      else ((if pyIn "search" (pyLower goal) || pyIn "find" (pyLower goal)
            then [searchStep goal] else [])
          ++ (if pyIn "file" (pyLower goal) || pyIn "read" (pyLower goal)
            then [listDirStep] else [])) := rfl

/-- Outcome of the LLM planning call inside `_create_plan`: transport failure,
a `json.loads` error, a successful parse to a non-list JSON value, or a
successful parse to a list of steps. -/
inductive PlanOutcome where
  | failure
  | unparseable
  | parsedOther
  | parsedList (steps : List Step)

/-- Model of `Orchestrator._create_plan` as a function of the LLM outcome: a parsed
list is returned as the plan, a parsed non-list yields `[]`, and transport or
parse failures take the deterministic fallback. -/
def create_plan (resp : PlanOutcome) (goal : String) : List Step :=
  match resp with
  | .parsedList steps => steps
  | .parsedOther => []
  | .failure => create_fallback_plan goal
  | .unparseable => create_fallback_plan goal

theorem create_fallback_plan_ne_nil (goal : String) : create_fallback_plan goal ≠ [] := by
  rw [create_fallback_plan_eq]
  by_cases h : ((if pyIn "search" (pyLower goal) || pyIn "find" (pyLower goal)
        then [searchStep goal] else [])
      ++ (if pyIn "file" (pyLower goal) || pyIn "read" (pyLower goal)
        then [listDirStep] else [])) = []
  · rw [if_pos h]
    exact List.cons_ne_nil _ _
  · rw [if_neg h]
    exact h

/-- C2 counterexample: a generation response that parses to the empty JSON
list makes `_create_plan` return an empty plan, and a response parsing to a
non-list JSON value returns `[]` rather than the fallback — so the planning
phase can yield an empty plan even though the keyword fallback is non-empty. -/
theorem C2_counterexample :
    create_plan (PlanOutcome.parsedList []) "search for the capital of France" = [] ∧
    create_plan PlanOutcome.parsedOther "search for the capital of France" = [] ∧
    create_fallback_plan "search for the capital of France" ≠ [] :=
  ⟨rfl, rfl, create_fallback_plan_ne_nil _⟩

/-- C2 (amended): on transport failure or strict-JSON parse failure the
planning phase returns the deterministic keyword fallback plan, which is
non-empty for every goal string; however a response that successfully parses
to an empty JSON list (or to a non-list value) yields an empty plan, so
planning as a whole can return an empty plan. -/
theorem C2_fallback_on_failure (goal : String) :
    create_plan PlanOutcome.failure goal = create_fallback_plan goal ∧
    create_plan PlanOutcome.unparseable goal = create_fallback_plan goal ∧
    create_fallback_plan goal ≠ [] :=
  ⟨rfl, rfl, create_fallback_plan_ne_nil goal⟩

/-- C8: the deterministic keyword fallback plan contains the `search_web`
step whenever the lowercased goal contains "search" or "find", additionally
the `list_directory` step whenever it contains "file" or "read", and is
exactly the single introspective `get_system_info` step when no keyword
matches. -/
theorem C8_fallback_plan_keywords (goal : String) :
    ((pyIn "search" (pyLower goal) || pyIn "find" (pyLower goal)) = true →
        searchStep goal ∈ create_fallback_plan goal ∧
        (searchStep goal).action = "search_web") ∧
    ((pyIn "file" (pyLower goal) || pyIn "read" (pyLower goal)) = true →
        listDirStep ∈ create_fallback_plan goal ∧
        listDirStep.action = "list_directory") ∧
    ((pyIn "search" (pyLower goal) || pyIn "find" (pyLower goal)) = false →
        (pyIn "file" (pyLower goal) || pyIn "read" (pyLower goal)) = false →
        create_fallback_plan goal = [systemInfoStep] ∧
        systemInfoStep.action = "get_system_info") := by
  refine ⟨?_, ?_, ?_⟩
  · intro hs
    refine ⟨?_, rfl⟩
    by_cases hf : (pyIn "file" (pyLower goal) || pyIn "read" (pyLower goal)) = true
    · simp [create_fallback_plan_eq, hs, hf]
    · simp only [Bool.not_eq_true] at hf
      simp [create_fallback_plan_eq, hs, hf]
  · intro hf
    refine ⟨?_, rfl⟩
    by_cases hs : (pyIn "search" (pyLower goal) || pyIn "find" (pyLower goal)) = true
    · simp [create_fallback_plan_eq, hs, hf]
    · simp only [Bool.not_eq_true] at hs
      simp [create_fallback_plan_eq, hs, hf]
  · intro hs hf
    exact ⟨by simp [create_fallback_plan_eq, hs, hf], rfl⟩

/-- C8 witness: the scenario goal "search for the capital of France"
produces a plan containing the `search_web` step. -/
theorem C8_fallback_plan_keywords_witness :
    searchStep "search for the capital of France"
        ∈ create_fallback_plan "search for the capital of France" ∧
    (searchStep "search for the capital of France").action = "search_web" :=
  (C8_fallback_plan_keywords "search for the capital of France").1 (by decide)

/-! ### Action results and per-step context recording (`_execute_task` lines
294-296 together with `MemoryCore.update_current_context`) -/

/-- The `ActionResult` dataclass (the fields the orchestrator consults). -/
structure ActionResult where
  success : Bool
  result : Option String
  error : Option String
  deriving DecidableEq

/-- Python truthiness of an optional string value (`None` and `""` are
falsy). -/
def truthy : Option String → Bool
  | none => false
  | some s => !(s == "")

/-- A value of the working-context map: `{"value": ..., "timestamp": ...}`. -/
structure CtxVal where
  value : String
  timestamp : Nat
  deriving DecidableEq

/-- Model of `MemoryCore.update_current_context`. -/
def update_current_context (ctx : List (String × CtxVal)) (k : String) (v : String)
    (now : Nat) : List (String × CtxVal) :=
  pyDictSet ctx k ⟨v, now⟩

/-- The two context stores visible to a step: the task's own `context` dict
and the memory core's `current_context`. -/
structure CtxState where
  taskCtx : List (String × String)
  memCtx : List (String × CtxVal)
  deriving DecidableEq

/-- The post-step recording of `_execute_task`: on a successful step with a
truthy result value, `update_current_context("step_<idx>", result.result)`
is called on the memory core; the task's own context dict is not touched. -/
def recordStepResult (st : CtxState) (idx : Nat) (r : ActionResult) (now : Nat) : CtxState :=
  if r.success && truthy r.result then
    { st with memCtx :=
        update_current_context st.memCtx ("step_" ++ toString idx) (r.result.getD "") now }
  else st

/-- C3 counterexample: a successful step with non-null result `"out"` leaves
`Task.context` completely unchanged (in particular without any `step_0` key);
the merge lands in the memory core's working context instead, wrapped in a
value/timestamp record. -/
theorem C3_counterexample :
    (recordStepResult ⟨[("key0", "val0")], []⟩ 0 ⟨true, some "out", none⟩ 5).taskCtx
        = [("key0", "val0")] ∧
    pyDictGet (recordStepResult ⟨[("key0", "val0")], []⟩ 0
        ⟨true, some "out", none⟩ 5).taskCtx "step_0" = none ∧
    pyDictGet (recordStepResult ⟨[("key0", "val0")], []⟩ 0
        ⟨true, some "out", none⟩ 5).memCtx "step_0" = some ⟨"out", 5⟩ :=
  ⟨rfl, rfl, rfl⟩

/-- C3 (amended): for every plan step that executes successfully with a
truthy (non-null, non-empty) result value, the value is stored in the memory
core's working context under key `step_<index>` (wrapped with a timestamp),
no other key of that working context changes, and `Task.context` itself is
not modified. -/
theorem C3_step_context_merge (st : CtxState) (idx : Nat) (r : ActionResult)
    (now : Nat) (v : String) (hs : r.success = true) (hv : r.result = some v)
    (hne : v ≠ "") :
    (recordStepResult st idx r now).taskCtx = st.taskCtx ∧
    pyDictGet (recordStepResult st idx r now).memCtx ("step_" ++ toString idx)
        = some ⟨v, now⟩ ∧
    ∀ k, k ≠ "step_" ++ toString idx →
      pyDictGet (recordStepResult st idx r now).memCtx k = pyDictGet st.memCtx k := by
  have htr : truthy r.result = true := by
    rw [hv]
    simp [truthy, hne]
  have hcond : (r.success && truthy r.result) = true := by rw [hs, htr]; rfl
  have hred : recordStepResult st idx r now =
      { st with memCtx :=
          update_current_context st.memCtx ("step_" ++ toString idx) (r.result.getD "") now } := by
    unfold recordStepResult
    rw [hcond]
    simp
  rw [hred]
  refine ⟨rfl, ?_, ?_⟩
  · simp [update_current_context, pyDictGet_set, hv]
  · intro k hk
    simp [update_current_context, pyDictGet_set, hk]

/-- C3 witness: instantiation at a concrete state and step result. -/
theorem C3_step_context_merge_witness :
    (recordStepResult ⟨[], [("prior", ⟨"p", 1⟩)]⟩ 2 ⟨true, some "data", none⟩ 9).taskCtx
        = [] ∧
    pyDictGet (recordStepResult ⟨[], [("prior", ⟨"p", 1⟩)]⟩ 2
        ⟨true, some "data", none⟩ 9).memCtx ("step_" ++ toString 2) = some ⟨"data", 9⟩ ∧
    ∀ k, k ≠ "step_" ++ toString 2 →
      pyDictGet (recordStepResult ⟨[], [("prior", ⟨"p", 1⟩)]⟩ 2
          ⟨true, some "data", none⟩ 9).memCtx k
        = pyDictGet [("prior", ⟨"p", 1⟩)] k :=
  C3_step_context_merge ⟨[], [("prior", ⟨"p", 1⟩)]⟩ 2 ⟨true, some "data", none⟩ 9 "data"
    rfl rfl (by decide)

/-! ### Short-term memory eviction (`MemoryCore.add_short_term_memory` and
`_cleanup_short_term_memory`) -/

/-- One short-term item in the vector store: its id and the timestamp kept in
its metadata. -/
structure STItem where
  id : Nat
  ts : Nat
  deriving DecidableEq

/-- One row of the SQLite `memory_metadata` table (the fields eviction
touches). -/
structure MetaRow where
  id : Nat
  memory_type : String
  deriving DecidableEq

/-- The two stores `add_short_term_memory` writes: the chroma short-term
collection and the SQLite metadata shadow, each in insertion order. -/
structure MemState where
  vec : List STItem
  meta : List MetaRow
  deriving DecidableEq

/-- Stable insertion (by ascending timestamp, equal timestamps keep earlier
items first) used to model Python's stable `list.sort(key=...)`. -/
def insertByTs (x : STItem) : List STItem → List STItem
  | [] => [x]
  | y :: ys => if x.ts < y.ts then x :: y :: ys else y :: insertByTs x ys

/-- Stable sort by timestamp ascending (`memories_with_time.sort(key=...)`). -/
def sortByTs (l : List STItem) : List STItem :=
  l.foldl (fun acc x => insertByTs x acc) []

/-- Model of `MemoryCore._cleanup_short_term_memory` with ceiling `C`: when the
short-term count exceeds `C`, sort by timestamp ascending and delete the
oldest `count - C` items by id from both the vector store and the metadata
table. -/
def cleanup_short_term (C : Nat) (s : MemState) : MemState :=
  if C < s.vec.length then
    { vec := s.vec.filter fun x =>
        !(decide (x.id ∈ ((sortByTs s.vec).take (s.vec.length - C)).map STItem.id))
      meta := s.meta.filter fun m =>
        !(decide (m.id ∈ ((sortByTs s.vec).take (s.vec.length - C)).map STItem.id)) }
  else s

/-- Model of `MemoryCore.add_short_term_memory`: add the item to the vector store,
add its metadata row, then run the cleanup. -/
def add_short_term_memory (C : Nat) (s : MemState) (i ts : Nat) : MemState :=
  cleanup_short_term C { vec := s.vec ++ [⟨i, ts⟩], meta := s.meta ++ [⟨i, "short_term"⟩] }

/-- Run of `n` successive `add_short_term_memory` calls with ceiling `C`, item `k`
carrying id `k` and timestamp `k` (timestamps strictly increase across a
sequential run). -/
def runAdds (C : Nat) : Nat → MemState
  | 0 => ⟨[], []⟩
  | n + 1 => add_short_term_memory C (runAdds C n) n n

theorem insertByTs_append (x : STItem) (acc : List STItem)
    (h : ∀ y ∈ acc, ¬x.ts < y.ts) : insertByTs x acc = acc ++ [x] := by
  induction acc with
  | nil => rfl
  | cons y ys ih =>
    rw [insertByTs, if_neg (h y (List.mem_cons_self y ys))]
    rw [ih fun z hz => h z (List.mem_cons_of_mem _ hz)]
    rfl

theorem foldl_insertByTs_eq (l : List STItem) :
    ∀ acc : List STItem, List.Pairwise (fun a b => a.ts ≤ b.ts) (acc ++ l) →
      l.foldl (fun acc x => insertByTs x acc) acc = acc ++ l := by
  induction l with
  | nil => intro acc _; simp
  | cons x xs ih =>
    intro acc h
    have hx : insertByTs x acc = acc ++ [x] := by
      apply insertByTs_append
      intro y hy
      exact Nat.not_lt.mpr
        ((List.pairwise_append.mp h).2.2 y hy x (List.mem_cons_self x xs))
    rw [List.foldl_cons, hx, ih (acc ++ [x]) (by simpa using h)]
    simp

theorem sortByTs_eq_self (l : List STItem)
    (h : List.Pairwise (fun a b => a.ts ≤ b.ts) l) : sortByTs l = l := by
  unfold sortByTs
  simpa using foldl_insertByTs_eq l [] (by simpa using h)

theorem cleanup_noop (C : Nat) (A : List STItem) (B : List MetaRow) (h : ¬C < A.length) :
    cleanup_short_term C ⟨A, B⟩ = ⟨A, B⟩ := by
  simp [cleanup_short_term, h]

theorem cleanup_evict (C : Nat) (A : List STItem) (B : List MetaRow) (h : C < A.length) :
    cleanup_short_term C ⟨A, B⟩ =
      ⟨A.filter fun x => !(decide (x.id ∈ ((sortByTs A).take (A.length - C)).map STItem.id)),
       B.filter fun m => !(decide (m.id ∈ ((sortByTs A).take (A.length - C)).map STItem.id))⟩ := by
  simp [cleanup_short_term, h]

/-- The shape of the item list after `n` sequential adds: the most recent
`min n C` items, in insertion order. -/
theorem runAdds_inv (C : Nat) (hC : 0 < C) :
    ∀ n : Nat,
      (runAdds C n).vec = (List.range' (n - C) (min n C)).map (fun i => (⟨i, i⟩ : STItem)) ∧
      (runAdds C n).meta
        = (List.range' (n - C) (min n C)).map (fun i => (⟨i, "short_term"⟩ : MetaRow)) := by
  intro n
  induction n with
  | zero =>
    have h1 : 0 - C = 0 := by omega
    have h2 : min 0 C = 0 := by omega
    rw [h1, h2]
    exact ⟨rfl, rfl⟩
  | succ n ih =>
    obtain ⟨hvec, hmeta⟩ := ih
    have hsum : n - C + min n C = n := by omega
    have hcat : List.range' (n - C) (min n C) ++ [n] = List.range' (n - C) (min n C + 1) := by
      rw [List.range'_1_concat (n - C) (min n C)]
      simp [hsum]
    have hvec1 : (runAdds C n).vec ++ [(⟨n, n⟩ : STItem)]
        = (List.range' (n - C) (min n C + 1)).map (fun i => (⟨i, i⟩ : STItem)) := by
      rw [hvec, ← hcat]
      simp
    have hmeta1 : (runAdds C n).meta ++ [(⟨n, "short_term"⟩ : MetaRow)]
        = (List.range' (n - C) (min n C + 1)).map (fun i => (⟨i, "short_term"⟩ : MetaRow)) := by
      rw [hmeta, ← hcat]
      simp
    have hstep : runAdds C (n + 1) = cleanup_short_term C
        ⟨(List.range' (n - C) (min n C + 1)).map (fun i => (⟨i, i⟩ : STItem)),
         (List.range' (n - C) (min n C + 1)).map (fun i => (⟨i, "short_term"⟩ : MetaRow))⟩ := by
      show cleanup_short_term C ⟨(runAdds C n).vec ++ [⟨n, n⟩],
          (runAdds C n).meta ++ [⟨n, "short_term"⟩]⟩ = _
      rw [hvec1, hmeta1]
    rw [hstep]
    have hlenmap : ((List.range' (n - C) (min n C + 1)).map
        (fun i => (⟨i, i⟩ : STItem))).length = min n C + 1 := by
      simp
    by_cases hn : n < C
    · have hle : ¬C < ((List.range' (n - C) (min n C + 1)).map
          (fun i => (⟨i, i⟩ : STItem))).length := by
        rw [hlenmap]
        omega
      rw [cleanup_noop C _ _ hle]
      have h1 : (n + 1) - C = n - C := by omega
      have h2 : min (n + 1) C = min n C + 1 := by omega
      rw [h1, h2]
      exact ⟨rfl, rfl⟩
    · have hmin : min n C = C := by omega
      have hCless : C < ((List.range' (n - C) (min n C + 1)).map
          (fun i => (⟨i, i⟩ : STItem))).length := by
        rw [hlenmap]
        omega
      rw [cleanup_evict C _ _ hCless]
      have hsorted : sortByTs ((List.range' (n - C) (min n C + 1)).map
          (fun i => (⟨i, i⟩ : STItem)))
          = (List.range' (n - C) (min n C + 1)).map (fun i => (⟨i, i⟩ : STItem)) := by
        apply sortByTs_eq_self
        rw [List.pairwise_map]
        exact (List.pairwise_lt_range' _ _).imp fun h => Nat.le_of_lt h
      have hsplit : List.range' (n - C) (min n C + 1)
          = (n - C) :: List.range' (n - C + 1) (min n C) := by
        simpa using List.range'_succ (n - C) (min n C) 1
      have htake : (((List.range' (n - C) (min n C + 1)).map
            (fun i => (⟨i, i⟩ : STItem))).take
          (((List.range' (n - C) (min n C + 1)).map
            (fun i => (⟨i, i⟩ : STItem))).length - C)).map STItem.id = [n - C] := by
        rw [hlenmap]
        have hone : min n C + 1 - C = 1 := by omega
        rw [hone, hsplit]
        simp
      rw [hsorted, htake]
      have h1 : (n + 1) - C = n - C + 1 := by omega
      have h2 : min (n + 1) C = min n C := by omega
      constructor
      · show ((List.range' (n - C) (min n C + 1)).map (fun i => (⟨i, i⟩ : STItem))).filter
            (fun x => !(decide (x.id ∈ ([n - C] : List Nat)))) = _
        rw [hsplit]
        simp only [List.map_cons, List.filter_cons]
        have hhead : (!(decide ((n - C : Nat) ∈ ([n - C] : List Nat)))) = false := by simp
        have hrest : ∀ x ∈ (List.range' (n - C + 1) (min n C)).map
            (fun i => (⟨i, i⟩ : STItem)),
            (!(decide (x.id ∈ ([n - C] : List Nat)))) = true := by
          intro x hx
          rcases List.mem_map.mp hx with ⟨i, hi, rfl⟩
          have := (List.mem_range'_1.mp hi).1
          simp only [List.mem_singleton, Bool.not_eq_eq_eq_not, Bool.not_true,
            decide_eq_false_iff_not]
          omega
        rw [hhead, List.filter_eq_self.mpr hrest, h1, h2]
        simp
      · show ((List.range' (n - C) (min n C + 1)).map
            (fun i => (⟨i, "short_term"⟩ : MetaRow))).filter
            (fun m => !(decide (m.id ∈ ([n - C] : List Nat)))) = _
        rw [hsplit]
        simp only [List.map_cons, List.filter_cons]
        have hhead : (!(decide ((n - C : Nat) ∈ ([n - C] : List Nat)))) = false := by simp
        have hrest : ∀ m ∈ (List.range' (n - C + 1) (min n C)).map
            (fun i => (⟨i, "short_term"⟩ : MetaRow)),
            (!(decide (m.id ∈ ([n - C] : List Nat)))) = true := by
          intro m hm
          rcases List.mem_map.mp hm with ⟨i, hi, rfl⟩
          have := (List.mem_range'_1.mp hi).1
          simp only [List.mem_singleton, Bool.not_eq_eq_eq_not, Bool.not_true,
            decide_eq_false_iff_not]
          omega
        rw [hhead, List.filter_eq_self.mpr hrest, h1, h2]
        simp

/-- C4: after `N` sequential `add_short_term_memory` calls with ceiling `C`
(`0 < C < N`), the two stores hold exactly the `C` most recent items — the
`N - C` oldest-by-timestamp items are absent from both the vector store and
the metadata table, and every index in `[N-C, N)` is present in both. -/
theorem C4_eviction (C N : Nat) (hC : 0 < C) (hN : C < N) :
    (runAdds C N).vec = (List.range' (N - C) C).map (fun i => (⟨i, i⟩ : STItem)) ∧
    (runAdds C N).meta = (List.range' (N - C) C).map (fun i => (⟨i, "short_term"⟩ : MetaRow)) ∧
    (∀ i, i < N - C →
      (∀ x ∈ (runAdds C N).vec, x.id ≠ i) ∧ (∀ m ∈ (runAdds C N).meta, m.id ≠ i)) ∧
    (∀ i, N - C ≤ i → i < N →
      (⟨i, i⟩ : STItem) ∈ (runAdds C N).vec ∧
      (⟨i, "short_term"⟩ : MetaRow) ∈ (runAdds C N).meta) := by
  obtain ⟨hvec, hmeta⟩ := runAdds_inv C hC N
  have hmin : min N C = C := by omega
  rw [hmin] at hvec hmeta
  refine ⟨hvec, hmeta, ?_, ?_⟩
  · intro i hi
    constructor
    · intro x hx
      rw [hvec] at hx
      rcases List.mem_map.mp hx with ⟨j, hj, rfl⟩
      have := (List.mem_range'_1.mp hj).1
      simp
      omega
    · intro m hm
      rw [hmeta] at hm
      rcases List.mem_map.mp hm with ⟨j, hj, rfl⟩
      have := (List.mem_range'_1.mp hj).1
      simp
      omega
  · intro i h1 h2
    have hmem : i ∈ List.range' (N - C) C := by
      rw [List.mem_range'_1]
      omega
    constructor
    · rw [hvec]
      exact List.mem_map_of_mem _ hmem
    · rw [hmeta]
      exact List.mem_map_of_mem _ hmem

/-- C4 witness: instantiation at ceiling 2 and 5 adds. -/
theorem C4_eviction_witness :
    (runAdds 2 5).vec = (List.range' 3 2).map (fun i => (⟨i, i⟩ : STItem)) ∧
    (runAdds 2 5).meta = (List.range' 3 2).map (fun i => (⟨i, "short_term"⟩ : MetaRow)) ∧
    (∀ i, i < 3 →
      (∀ x ∈ (runAdds 2 5).vec, x.id ≠ i) ∧ (∀ m ∈ (runAdds 2 5).meta, m.id ≠ i)) ∧
    (∀ i, 3 ≤ i → i < 5 →
      (⟨i, i⟩ : STItem) ∈ (runAdds 2 5).vec ∧
      (⟨i, "short_term"⟩ : MetaRow) ∈ (runAdds 2 5).meta) := by
  have h := C4_eviction 2 5 (by decide) (by decide)
  simpa using h

/-! ### Relevance-ranked retrieval (`MemoryCore.get_relevant_context`) -/

/-- A hit returned by the episodic-tier similarity search: document content,
vector distance, and the `success` flag from its metadata (`none` when
absent; the code reads it with `metadata.get("success", False)`). -/
structure EpHit where
  content : String
  distance : ℚ
  success : Option Bool
  deriving DecidableEq

/-- A hit returned by the long-term-tier similarity search, carrying the
optional `importance_score` from its metadata (read with default 1.0). -/
structure LTHit where
  content : String
  distance : ℚ
  importance : Option ℚ
  deriving DecidableEq

/-- One entry of the context list built by `get_relevant_context`. -/
structure CtxItem where
  ctype : String
  content : String
  relevance : ℚ
  deriving DecidableEq

/-- Stable insertion by descending relevance (equal relevances keep earlier
items first), modelling Python's stable `sort(key=..., reverse=True)`. -/
def insertDesc (x : CtxItem) : List CtxItem → List CtxItem
  | [] => [x]
  | y :: ys => if y.relevance < x.relevance then x :: y :: ys else y :: insertDesc x ys

/-- Stable sort by relevance descending. -/
def sortDescRel (l : List CtxItem) : List CtxItem :=
  l.foldl (fun acc x => insertDesc x acc) []

/-- Model of `MemoryCore.get_relevant_context` as a function of the two search-result
lists: keep only episodes flagged successful, at relevance `1 - distance`;
score long-term memories at `(1 - distance) * importance` with importance
defaulting to 1.0; concatenate, sort by relevance descending, and truncate
to `limit`. -/
def get_relevant_context (episodes : List EpHit) (memories : List LTHit)
    (limit : Nat) : List CtxItem :=
  (sortDescRel
    ((episodes.filter fun e => e.success.getD false).map
        (fun e => ⟨"successful_episode", e.content, 1 - e.distance⟩)
      ++ memories.map
        (fun m => ⟨"long_term_memory", m.content,
          (1 - m.distance) * m.importance.getD 1⟩))).take limit

theorem insertDesc_perm (x : CtxItem) (l : List CtxItem) :
    (insertDesc x l).Perm (x :: l) := by
  induction l with
  | nil => exact List.Perm.refl _
  | cons y ys ih =>
    rw [insertDesc]
    by_cases h : y.relevance < x.relevance
    · rw [if_pos h]
    · rw [if_neg h]
      exact (ih.cons y).trans (List.Perm.swap x y ys)

theorem foldl_insertDesc_perm (l : List CtxItem) :
    ∀ acc : List CtxItem,
      (l.foldl (fun acc x => insertDesc x acc) acc).Perm (acc ++ l) := by
  induction l with
  | nil => intro acc; simp
  | cons x xs ih =>
    intro acc
    rw [List.foldl_cons]
    refine (ih (insertDesc x acc)).trans ?_
    refine (List.Perm.append_right xs (insertDesc_perm x acc)).trans ?_
    exact List.perm_middle.symm

theorem sortDescRel_perm (l : List CtxItem) : (sortDescRel l).Perm l := by
  simpa using foldl_insertDesc_perm l []

theorem insertDesc_sorted (x : CtxItem) (l : List CtxItem)
    (h : List.Pairwise (fun a b => b.relevance ≤ a.relevance) l) :
    List.Pairwise (fun a b => b.relevance ≤ a.relevance) (insertDesc x l) := by
  induction l with
  | nil => simp [insertDesc]
  | cons y ys ih =>
    rw [insertDesc]
    by_cases hc : y.relevance < x.relevance
    · rw [if_pos hc]
      refine List.Pairwise.cons ?_ h
      intro z hz
      rcases List.mem_cons.mp hz with rfl | hz
      · exact le_of_lt hc
      · exact le_trans ((List.pairwise_cons.mp h).1 z hz) (le_of_lt hc)
    · rw [if_neg hc]
      have hy := (List.pairwise_cons.mp h).1
      have hys := (List.pairwise_cons.mp h).2
      refine List.Pairwise.cons ?_ (ih hys)
      intro z hz
      rcases List.mem_cons.mp ((insertDesc_perm x ys).mem_iff.mp hz) with rfl | hz'
      · exact le_of_not_lt hc
      · exact hy z hz'

theorem sortDescRel_sorted (l : List CtxItem) :
    List.Pairwise (fun a b => b.relevance ≤ a.relevance) (sortDescRel l) := by
  suffices h : ∀ acc, List.Pairwise (fun a b => b.relevance ≤ a.relevance) acc →
      List.Pairwise (fun a b => b.relevance ≤ a.relevance)
        (l.foldl (fun acc x => insertDesc x acc) acc) from h [] List.Pairwise.nil
  induction l with
  | nil => exact fun acc hacc => hacc
  | cons x xs ih => exact fun acc hacc => ih _ (insertDesc_sorted x acc hacc)

/-- C5: `get_relevant_context` returns at most `limit` entries (exactly
`limit` when enough are eligible), sorted by relevance descending, and every
entry is either a successful episode at relevance `1 - distance` (episodes
not flagged successful never appear) or a long-term memory at relevance
`(1 - distance) * importance` with importance defaulting to 1.0. -/
theorem C5_relevant_context (episodes : List EpHit) (memories : List LTHit) (limit : Nat) :
    (get_relevant_context episodes memories limit).length
        = min limit
            ((episodes.filter fun e => e.success.getD false).length + memories.length) ∧
    List.Pairwise (fun a b => b.relevance ≤ a.relevance)
      (get_relevant_context episodes memories limit) ∧
    ∀ c ∈ get_relevant_context episodes memories limit,
      (∃ e, e ∈ episodes ∧ e.success.getD false = true ∧
          c = ⟨"successful_episode", e.content, 1 - e.distance⟩) ∨
      (∃ m, m ∈ memories ∧
          c = ⟨"long_term_memory", m.content,
            (1 - m.distance) * m.importance.getD 1⟩) := by
  refine ⟨?_, ?_, ?_⟩
  · rw [get_relevant_context, List.length_take, (sortDescRel_perm _).length_eq]
    simp
  · exact List.Pairwise.sublist (List.take_sublist _ _) (sortDescRel_sorted _)
  · intro c hc
    have hc1 : c ∈ sortDescRel
        ((episodes.filter fun e => e.success.getD false).map
            (fun e => ⟨"successful_episode", e.content, 1 - e.distance⟩)
          ++ memories.map
            (fun m => ⟨"long_term_memory", m.content,
              (1 - m.distance) * m.importance.getD 1⟩)) :=
      List.Sublist.mem hc (List.take_sublist _ _)
    rcases List.mem_append.mp ((sortDescRel_perm _).mem_iff.mp hc1) with h | h
    · rcases List.mem_map.mp h with ⟨e, he, rfl⟩
      have := List.mem_filter.mp he
      exact Or.inl ⟨e, this.1, this.2, rfl⟩
    · rcases List.mem_map.mp h with ⟨m, hm, rfl⟩
      exact Or.inr ⟨m, hm, rfl⟩

/-! ### Task execution (`Orchestrator._execute_task`, `_handle_failure`,
`_finalize_task`) -/

/-- The `TaskStatus` enum. -/
inductive TaskStatus where
  | pending
  | planning
  | executing
  | completed
  | failed
  | paused
  deriving DecidableEq

/-- One entry of `Task.actions`: either the structured step log appended by
`_execute_task` (with its 1-based step number) or the recovery entry
appended by `_handle_failure` on a successful alternative. -/
inductive LogEntry where
  | step (stepNum : Nat) (action : String) (r : ActionResult)
  | recovery (origAction : String) (altAction : String) (r : ActionResult)
  deriving DecidableEq

/-- The collaborators `_handle_failure` consults for the step at a given
index: the generation collaborator's suggested alternative action (`none`
models transport failure, unparseable JSON, or a missing key) and the
result of executing that alternative. -/
structure RecoveryEnv where
  altOf : Nat → Option String
  altExec : Nat → ActionResult

/-- Python's f-string rendering of an optional error text (`None` prints as
`"None"`). -/
def errStr : Option String → String
  | none => "None"
  | some s => s

/-- Model of `Orchestrator._handle_failure` for the step at `idx` with original
action `orig`: `some entry` (the recovery entry appended to `Task.actions`)
exactly when the alternative was obtained, parsed and executed successfully;
`none` when recovery fails. -/
def handle_failure (env : RecoveryEnv) (idx : Nat) (orig : String) : Option LogEntry :=
  match env.altOf idx with
  | none => none
  | some alt =>
      if (env.altExec idx).success
      then some (LogEntry.recovery orig alt (env.altExec idx))
      else none

/-- The step loop of `_execute_task`, walking the remaining plan from
absolute step index `idx` with the log accumulated so far: returns the final
log, the status when the loop ends (`executing` when every step succeeded or
was recovered, `failed` on an unrecovered failure) and the error text, if
any. -/
def execSteps (exec : Nat → ActionResult) (env : RecoveryEnv) :
    List String → Nat → List LogEntry → List LogEntry × TaskStatus × Option String
  | [], _, log => (log, TaskStatus.executing, none)
  | a :: rest, idx, log =>
      if (exec idx).success then
        execSteps exec env rest (idx + 1) (log ++ [LogEntry.step (idx + 1) a (exec idx)])
      else
        match handle_failure env idx a with
        | some e =>
            execSteps exec env rest (idx + 1) (log ++ [LogEntry.step (idx + 1) a (exec idx)] ++ [e])
        | none =>
            (log ++ [LogEntry.step (idx + 1) a (exec idx)], TaskStatus.failed,
              some ("Failed at step " ++ toString (idx + 1) ++ ": " ++ errStr (exec idx).error))

/-- The task state at the end of `_execute_task`. -/
structure TaskModel where
  status : TaskStatus
  plan : List String
  actions : List LogEntry
  result : Option String
  error : Option String
  deriving DecidableEq

/-- Model of `Orchestrator._execute_task` (happy path and unrecovered-failure path):
run the step loop over the plan, then promote a still-`executing` status to
`completed` with the fixed result string. -/
def runTask (exec : Nat → ActionResult) (env : RecoveryEnv) (plan : List String) : TaskModel :=
  let out := execSteps exec env plan 0 []
  if out.2.1 = TaskStatus.executing then
    { status := TaskStatus.completed, plan := plan, actions := out.1,
      result := some "Task completed successfully", error := none }
  else
    { status := out.2.1, plan := plan, actions := out.1, result := none, error := out.2.2 }

/-- The sequence of values assigned to `Task.status` over the task's life:
`pending` at creation, `planning` and `executing` at the phase starts, and
the final status. -/
def taskTrace (exec : Nat → ActionResult) (env : RecoveryEnv) (plan : List String) :
    List TaskStatus :=
  [TaskStatus.pending, TaskStatus.planning, TaskStatus.executing,
    (runTask exec env plan).status]

/-- The forward transitions of the task state machine. -/
def allowedNext : TaskStatus → TaskStatus → Prop := fun a b =>
  (a = TaskStatus.pending ∧ b = TaskStatus.planning) ∨
  (a = TaskStatus.planning ∧ b = TaskStatus.executing) ∨
  (a = TaskStatus.executing ∧ (b = TaskStatus.completed ∨ b = TaskStatus.failed))

theorem execSteps_status (exec : Nat → ActionResult) (env : RecoveryEnv) :
    ∀ (steps : List String) (idx : Nat) (log : List LogEntry),
      (execSteps exec env steps idx log).2.1 = TaskStatus.executing ∨
      (execSteps exec env steps idx log).2.1 = TaskStatus.failed := by
  intro steps
  induction steps with
  | nil => intro idx log; exact Or.inl rfl
  | cons a rest ih =>
    intro idx log
    rw [execSteps]
    by_cases h : (exec idx).success
    · rw [if_pos h]
      exact ih _ _
    · rw [if_neg h]
      match hh : handle_failure env idx a with
      | some e => exact ih _ _
      | none => exact Or.inr rfl

theorem runTask_status (exec : Nat → ActionResult) (env : RecoveryEnv) (plan : List String) :
    (runTask exec env plan).status = TaskStatus.completed ∨
    (runTask exec env plan).status = TaskStatus.failed := by
  unfold runTask
  by_cases h : (execSteps exec env plan 0 []).2.1 = TaskStatus.executing
  · rw [if_pos h]
    exact Or.inl rfl
  · rw [if_neg h]
    rcases execSteps_status exec env plan 0 [] with h1 | h1
    · exact absurd h1 h
    · exact Or.inr h1

/-- C6: over the whole execution path the task status runs exactly through
`Pending → Planning → Executing → {Completed, Failed}`: the status trace is
a chain of forward transitions, starts at `pending`, never skips
`planning`, ends in a terminal state with nothing after it, and never
revisits a state. -/
theorem C6_status_monotonic (exec : Nat → ActionResult) (env : RecoveryEnv)
    (plan : List String) :
    List.Chain' allowedNext (taskTrace exec env plan) ∧
    (taskTrace exec env plan).head? = some TaskStatus.pending ∧
    TaskStatus.planning ∈ taskTrace exec env plan ∧
    ((taskTrace exec env plan).getLast? = some TaskStatus.completed ∨
      (taskTrace exec env plan).getLast? = some TaskStatus.failed) ∧
    (taskTrace exec env plan).Nodup := by
  rcases runTask_status exec env plan with h | h <;>
    refine ⟨?_, ?_, ?_, ?_, ?_⟩ <;>
    simp [taskTrace, h, allowedNext, List.chain'_cons]

/-- The step log entries produced by a run of successful steps starting at
absolute index `idx`. -/
def mkLogs (exec : Nat → ActionResult) : Nat → List String → List LogEntry
  | _, [] => []
  | idx, a :: rest => LogEntry.step (idx + 1) a (exec idx) :: mkLogs exec (idx + 1) rest

theorem mkLogs_length (exec : Nat → ActionResult) :
    ∀ (idx : Nat) (steps : List String), (mkLogs exec idx steps).length = steps.length := by
  intro idx steps
  induction steps generalizing idx with
  | nil => rfl
  | cons a rest ih => simp [mkLogs, ih]

theorem execSteps_all_success (exec : Nat → ActionResult) (env : RecoveryEnv) :
    ∀ (steps : List String) (idx : Nat) (log : List LogEntry),
      (∀ j, idx ≤ j → j < idx + steps.length → (exec j).success = true) →
      execSteps exec env steps idx log
        = (log ++ mkLogs exec idx steps, TaskStatus.executing, none) := by
  intro steps
  induction steps with
  | nil =>
    intro idx log _
    simp [execSteps, mkLogs]
  | cons a rest ih =>
    intro idx log h
    have hidx : (exec idx).success = true := by
      apply h idx (Nat.le_refl idx)
      simp only [List.length_cons]
      omega
    rw [execSteps, if_pos hidx]
    rw [ih (idx + 1) _ (fun j hj1 hj2 => by
      apply h j (by omega)
      simp
      omega)]
    simp [mkLogs]

theorem execSteps_append_success (exec : Nat → ActionResult) (env : RecoveryEnv) :
    ∀ (s₁ s₂ : List String) (idx : Nat) (log : List LogEntry),
      (∀ j, idx ≤ j → j < idx + s₁.length → (exec j).success = true) →
      execSteps exec env (s₁ ++ s₂) idx log
        = execSteps exec env s₂ (idx + s₁.length) (log ++ mkLogs exec idx s₁) := by
  intro s₁
  induction s₁ with
  | nil =>
    intro s₂ idx log _
    simp [mkLogs]
  | cons a rest ih =>
    intro s₂ idx log h
    have hidx : (exec idx).success = true := by
      apply h idx (Nat.le_refl idx)
      simp only [List.length_cons]
      omega
    rw [List.cons_append, execSteps, if_pos hidx]
    rw [ih s₂ (idx + 1) _ (fun j hj1 hj2 => by
      apply h j (by omega)
      simp
      omega)]
    have harith : idx + 1 + rest.length = idx + (a :: rest).length := by
      simp
      omega
    rw [harith]
    have hlog : (log ++ [LogEntry.step (idx + 1) a (exec idx)]) ++ mkLogs exec (idx + 1) rest
        = log ++ mkLogs exec idx (a :: rest) := by
      simp [mkLogs]
    rw [hlog]

/-- C7: when the step at index `i` fails (all earlier steps succeeding) and
the recovery routine also fails (no parseable alternative, or the
alternative's execution fails), the task ends `failed` with an error naming
the 1-based failing step index and the step's error text, and no step after
`i` is executed (the action log stops at entry `i + 1`); when the recovery
alternative succeeds, the recovery action is logged into `Task.actions` and
the plan continues (to completion if the remaining steps succeed). -/
theorem C7_failure_recovery (exec : Nat → ActionResult) (env : RecoveryEnv)
    (plan : List String) (i : Nat) (hi : i < plan.length)
    (hpre : ∀ j, j < i → (exec j).success = true)
    (hfail : (exec i).success = false) :
    ((env.altOf i = none ∨ (env.altExec i).success = false) →
      (runTask exec env plan).status = TaskStatus.failed ∧
      (runTask exec env plan).error
          = some ("Failed at step " ++ toString (i + 1) ++ ": " ++ errStr (exec i).error) ∧
      (runTask exec env plan).actions.length = i + 1) ∧
    (∀ alt, env.altOf i = some alt → (env.altExec i).success = true →
      (∀ j, i < j → j < plan.length → (exec j).success = true) →
      (runTask exec env plan).status = TaskStatus.completed ∧
      LogEntry.recovery plan[i] alt (env.altExec i) ∈ (runTask exec env plan).actions) := by
  have htl : (plan.take i).length = i := by
    rw [List.length_take]
    omega
  have hrun : execSteps exec env plan 0 []
      = execSteps exec env (plan[i] :: plan.drop (i + 1)) i (mkLogs exec 0 (plan.take i)) := by
    conv_lhs => rw [← List.take_append_drop i plan, List.drop_eq_getElem_cons hi]
    rw [execSteps_append_success exec env _ _ 0 [] (fun j hj1 hj2 => by
      apply hpre
      rw [htl] at hj2
      omega)]
    rw [htl]
    simp
  have hfailc : ¬(exec i).success = true := by
    rw [hfail]
    simp
  constructor
  · intro hrec
    have hhf : handle_failure env i (plan[i]) = none := by
      cases haltOf : env.altOf i with
      | none => simp [handle_failure, haltOf]
      | some alt =>
          rcases hrec with h | h
          · rw [haltOf] at h
            exact absurd h (by simp)
          · simp [handle_failure, haltOf, h]
    have hout : execSteps exec env plan 0 []
        = (mkLogs exec 0 (plan.take i) ++ [LogEntry.step (i + 1) (plan[i]) (exec i)],
            TaskStatus.failed,
            some ("Failed at step " ++ toString (i + 1) ++ ": " ++ errStr (exec i).error)) := by
      rw [hrun, execSteps, if_neg hfailc, hhf]
    refine ⟨?_, ?_, ?_⟩ <;>
      simp [runTask, hout, mkLogs_length, htl]
  · intro alt halt hsucc hpost
    have hhf : handle_failure env i (plan[i])
        = some (LogEntry.recovery (plan[i]) alt (env.altExec i)) := by
      simp [handle_failure, halt, hsucc]
    have hrest : ∀ j, i + 1 ≤ j → j < i + 1 + (plan.drop (i + 1)).length →
        (exec j).success = true := by
      intro j hj1 hj2
      rw [List.length_drop] at hj2
      exact hpost j (by omega) (by omega)
    have hout : execSteps exec env plan 0 []
        = ((mkLogs exec 0 (plan.take i) ++ [LogEntry.step (i + 1) (plan[i]) (exec i)]
              ++ [LogEntry.recovery (plan[i]) alt (env.altExec i)])
            ++ mkLogs exec (i + 1) (plan.drop (i + 1)),
            TaskStatus.executing, none) := by
      rw [hrun, execSteps, if_neg hfailc]
      simp only [hhf]
      rw [execSteps_all_success exec env _ _ _ hrest]
    refine ⟨?_, ?_⟩ <;>
      simp [runTask, hout]

/-- C7 witness oracles: step 1 succeeds, step 2 fails, and the recovery
request suffers a transport failure. -/
def wExec : Nat → ActionResult := fun j =>
  if j = 0 then ⟨true, some "ok", none⟩ else ⟨false, none, some "boom"⟩

/-- C7 witness recovery environment: the generation collaborator never
returns a parseable alternative. -/
def wEnv : RecoveryEnv := ⟨fun _ => none, fun _ => ⟨false, none, none⟩⟩

/-- C7 witness: a two-step plan whose second step fails without a viable
alternative ends `failed` with an error naming step 2, having executed
exactly two steps. -/
theorem C7_failure_recovery_witness :
    (runTask wExec wEnv ["alpha", "beta"]).status = TaskStatus.failed ∧
    (runTask wExec wEnv ["alpha", "beta"]).error
        = some ("Failed at step " ++ toString (1 + 1) ++ ": " ++ errStr (wExec 1).error) ∧
    (runTask wExec wEnv ["alpha", "beta"]).actions.length = 1 + 1 :=
  (C7_failure_recovery wExec wEnv ["alpha", "beta"] 1 (by decide)
    (by decide) (by decide)).1 (Or.inl rfl)

/-- The fields of the `TaskEpisode` built by `_finalize_task` that depend on
the task's final state. -/
structure Episode where
  goal : String
  result : String
  success : Bool
  duration_seconds : Nat
  deriving DecidableEq

/-- Python's `task.result or task.error or "No result"`: the first truthy
value in the chain (both `None` and the empty string are falsy). -/
def firstTruthy (result error : Option String) : String :=
  if truthy result then result.getD ""
  else if truthy error then error.getD ""
  else "No result"

/-- Model of `Orchestrator._finalize_task`, restricted to the episode fields derived
from the task's final state: `result` is the truthiness-chained
`task.result or task.error or "No result"` and `success` is
`task.status == TaskStatus.COMPLETED`. -/
def finalize_episode (goal : String) (status : TaskStatus)
    (result error : Option String) (duration : Nat) : Episode :=
  { goal := goal
    result := firstTruthy result error
    success := status == TaskStatus.completed
    duration_seconds := duration }

/-- C10 counterexample: a task whose `result` field is set to the empty
string (with an error text present) produces an episode whose `result` is
the error text, not the set result string — Python's `or` chain skips falsy
set values, contradicting the claim's "the task's result string when set". -/
theorem C10_counterexample :
    (finalize_episode "g" TaskStatus.failed (some "") (some "boom") 3).result = "boom" ∧
    (some "" : Option String) ≠ none ∧
    "boom" ≠ "" :=
  ⟨rfl, by simp, by decide⟩

/-- C10 (amended): the episode's `success` is true exactly when the final
status is `completed` (so every failed task yields `success = false`), and
its `result` is the task's result string when set and non-empty, otherwise
the task's error text when set and non-empty, otherwise the literal
`"No result"`. -/
theorem C10_finalize_episode (goal : String) (status : TaskStatus)
    (result error : Option String) (d : Nat) :
    ((finalize_episode goal status result error d).success = true ↔
        status = TaskStatus.completed) ∧
    (truthy result = true →
        (finalize_episode goal status result error d).result = result.getD "") ∧
    (truthy result = false → truthy error = true →
        (finalize_episode goal status result error d).result = error.getD "") ∧
    (truthy result = false → truthy error = false →
        (finalize_episode goal status result error d).result = "No result") ∧
    (status = TaskStatus.failed →
        (finalize_episode goal status result error d).success = false) := by
  refine ⟨?_, ?_, ?_, ?_, ?_⟩
  · simp [finalize_episode]
  · intro h
    simp [finalize_episode, firstTruthy, h]
  · intro h1 h2
    simp [finalize_episode, firstTruthy, h1, h2]
  · intro h1 h2
    simp [finalize_episode, firstTruthy, h1, h2]
  · intro h
    simp [finalize_episode, h]

/-- C10 witness: instantiation at a failed task carrying only an error
text. -/
theorem C10_finalize_episode_witness :
    ((finalize_episode "g2" TaskStatus.failed none (some "oops") 7).success = true ↔
        TaskStatus.failed = TaskStatus.completed) ∧
    (truthy (none : Option String) = true →
        (finalize_episode "g2" TaskStatus.failed none (some "oops") 7).result
          = (none : Option String).getD "") ∧
    (truthy (none : Option String) = false → truthy (some "oops") = true →
        (finalize_episode "g2" TaskStatus.failed none (some "oops") 7).result
          = (some "oops").getD "") ∧
    (truthy (none : Option String) = false → truthy (some "oops") = false →
        (finalize_episode "g2" TaskStatus.failed none (some "oops") 7).result
          = "No result") ∧
    (TaskStatus.failed = TaskStatus.failed →
        (finalize_episode "g2" TaskStatus.failed none (some "oops") 7).success = false) :=
  C10_finalize_episode "g2" TaskStatus.failed none (some "oops") 7

end Praxis
